import Mathlib

/-!
Shallow embedding of the core container of vigra (src/include/vigra/array_vector.hxx):
the non-owning `ArrayVectorView` and the owning, growable `ArrayVector`.

Raw memory is modelled as a total map from addresses (`Nat`) to values; the null
pointer is address `0`.  A view is a pair (element count, start address); an owning
array additionally records its capacity.  A `Heap` bundles the memory with a
fresh-allocation frontier `next`: `reserve_raw` hands out the block
`[next, next + capacity)` and advances the frontier, so distinct allocations are
disjoint, mirroring the allocator contract.  `deallocate` and element destruction
are no-ops on the model memory (freed cells keep their last value), which is the
conservative shallow rendering of C++ raw deallocation.
-/

namespace Vigra

/-- Raw memory: a total map from addresses to element values. -/
abbrev Mem (α : Type) : Type := Nat → α

variable {α : Type}

/-- Store value `v` at address `i`. -/
def writeMem (m : Mem α) (i : Nat) (v : α) : Mem α :=
  fun x => if x = i then v else m x

/-- `std::copy(src, src + n, dst)`: forward element-wise copy, first cell first.
    Reads go through the current memory, so overlapping ranges alias. -/
def copyFwd : Mem α → Nat → Nat → Nat → Mem α
  | m, _, _, 0 => m
  | m, d, s, n + 1 => copyFwd (writeMem m d (m s)) (d + 1) (s + 1) n

/-- `std::copy_backward(src, src + n, dst + n)`: element-wise copy, last cell first. -/
def copyBwd : Mem α → Nat → Nat → Nat → Mem α
  | m, _, _, 0 => m
  | m, d, s, n + 1 => copyBwd (writeMem m (d + n) (m (s + n))) d s n

/-- `std::uninitialized_fill(d, d + n, v)` / `std::fill`: write `v` into `n` cells. -/
def fillMem : Mem α → Nat → Nat → α → Mem α
  | m, _, 0, _ => m
  | m, d, n + 1, v => fillMem (writeMem m d v) (d + 1) n v

/-- `std::swap(m[i], m[j])`: exchange the contents of two cells. -/
def swapPair (m : Mem α) (i j : Nat) : Mem α :=
  writeMem (writeMem m i (m j)) j (m i)

/-- The element-wise swap loop of `swapDataImpl`:
    `for(k = 0; k < n; ++k) std::swap(m[a+k], m[b+k])`. -/
def swapLoop : Mem α → Nat → Nat → Nat → Mem α
  | m, _, _, 0 => m
  | m, a, b, n + 1 => swapLoop (swapPair m a b) (a + 1) (b + 1) n

/-- Read the element sequence `[m a, m (a+1), ..., m (a+n-1)]`. -/
def readList (m : Mem α) (a n : Nat) : List α :=
  (List.range n).map fun k => m (a + k)

/-- The two error kinds of the container: `vigra_precondition` failures
    (shape mismatch, out-of-range subarray) and allocation failure. -/
inductive VigraError : Type where
  | preconditionViolation (msg : String)
  | memoryExhaustion
deriving DecidableEq

/-- `ArrayVectorView<T>`: non-owning descriptor, field names as in the source. -/
structure ArrayVectorView : Type where
  size_ : Nat
  data_ : Nat
deriving DecidableEq

/-- `ArrayVectorView::copyImpl(rhs)` acting on a destination view `dst`:
    checks the shape precondition, then copies forward when
    `data_ <= rhs.data()` and backward otherwise. -/
def copyImpl (dst src : ArrayVectorView) (m : Mem α) : Except VigraError (Mem α) :=
  if dst.size_ = src.size_ then
    if dst.data_ ≤ src.data_ then
      .ok (copyFwd m dst.data_ src.data_ dst.size_)
    else
      .ok (copyBwd m dst.data_ src.data_ dst.size_)
  else
    .error (.preconditionViolation "ArrayVectorView::copy(): shape mismatch.")

/-- `ArrayVectorView::copy(this_type const & rhs)`: calls `copyImpl` only when
    the two data pointers differ. -/
def copy (dst src : ArrayVectorView) (m : Mem α) : Except VigraError (Mem α) :=
  if dst.data_ = src.data_ then .ok m else copyImpl dst src m

/-- `ArrayVectorView::swapDataImpl(rhs)`: size precondition, then either the direct
    element-wise swap loop when the ranges are disjoint, or the overlapping branch.
    The source constructs `ArrayVector<T> t(*this)` in the overlapping branch but
    never reads `t` again; since the temporary occupies fresh memory disjoint from
    both views, the construction has no effect on any cell either view can see and
    is omitted here.  The branch then runs `copyImpl(rhs)` followed by
    `rhs.copyImpl(*this)`, the second copy reading the already-updated cells. -/
def swapDataImpl (dst src : ArrayVectorView) (m : Mem α) : Except VigraError (Mem α) :=
  if dst.size_ = src.size_ then
    if dst.data_ + dst.size_ ≤ src.data_ ∨ src.data_ + dst.size_ ≤ dst.data_ then
      .ok (swapLoop m dst.data_ src.data_ dst.size_)
    else
      match copyImpl dst src m with
      | .ok m1 => copyImpl src dst m1
      | .error e => .error e
  else
    .error (.preconditionViolation "ArrayVectorView::swapData(): size mismatch.")

/-- `ArrayVectorView::swapData(this_type rhs)`: no-op when the data pointers agree. -/
def swapData (dst src : ArrayVectorView) (m : Mem α) : Except VigraError (Mem α) :=
  if dst.data_ = src.data_ then .ok m else swapDataImpl dst src m

/-- `ArrayVectorView::subarray(begin, end)` with its precondition
    `begin >= 0 && begin <= end && end <= size_` (the first conjunct is vacuous
    for the unsigned `size_type`). -/
def subarray (v : ArrayVectorView) (b e : Nat) : Except VigraError ArrayVectorView :=
  if b ≤ e ∧ e ≤ v.size_ then
    .ok (ArrayVectorView.mk (e - b) (v.data_ + b))
  else
    .error (.preconditionViolation "ArrayVectorView::subarray(): Limits out of range.")

/-- Two view ranges overlap: neither lies entirely below the other. -/
def Overlap (v1 v2 : ArrayVectorView) : Prop :=
  ¬(v1.data_ + v1.size_ ≤ v2.data_ ∨ v2.data_ + v2.size_ ≤ v1.data_)

instance (v1 v2 : ArrayVectorView) : Decidable (Overlap v1 v2) := by
  unfold Overlap; infer_instance

/-- Allocator state: the memory plus the fresh-allocation frontier.  Every block
    `reserve_raw` hands out starts at `next`, so blocks never overlap previously
    allocated storage (the allocator contract). -/
structure Heap (α : Type) : Type where
  mem : Mem α
  next : Nat

/-- `ArrayVector<T>`: owning array, extending the view with a capacity counter. -/
structure ArrayVector extends ArrayVectorView : Type where
  capacity_ : Nat
deriving DecidableEq

/-- `enum { minimumCapacity = 2 }`. -/
def minimumCapacity : Nat := 2

/-- `ArrayVector::reserve_raw(capacity)`: returns the null pointer without
    allocating when `capacity == 0`, otherwise a fresh block of exactly
    `capacity` slots. -/
def reserve_raw (h : Heap α) (capacity : Nat) : Nat × Heap α :=
  if capacity = 0 then (0, h)
  else (h.next, Heap.mk h.mem (h.next + capacity))

/-- Fallible `reserve_raw`: `alloc_.allocate` may fail with `std::bad_alloc`,
    modelled by a per-request size limit.  Used where a claim concerns
    allocation failure (`MemoryExhaustion`). -/
def reserve_raw_f (h : Heap α) (capacity limit : Nat) :
    Except VigraError (Nat × Heap α) :=
  if capacity = 0 then .ok (0, h)
  else if capacity ≤ limit then .ok (h.next, Heap.mk h.mem (h.next + capacity))
  else .error .memoryExhaustion

/-- `ArrayVector(size, alloc)`: `capacity_ = size`, allocate, then
    `std::uninitialized_fill` all slots when `size_ > 0`.  Also models the
    fill-value constructor (the fill value is a parameter). -/
def mkSized (size : Nat) (fill : α) (h : Heap α) : ArrayVector × Heap α :=
  let p := reserve_raw h size
  (ArrayVector.mk (ArrayVectorView.mk size p.1) size,
   Heap.mk (if size > 0 then fillMem p.2.mem p.1 size fill else p.2.mem) p.2.next)

/-- `ArrayVector()`: `capacity_ = minimumCapacity`, `size_ = 0`, allocate,
    leave the slots unconstructed. -/
def mkDefault (h : Heap α) : ArrayVector × Heap α :=
  let p := reserve_raw h minimumCapacity
  (ArrayVector.mk (ArrayVectorView.mk 0 p.1) minimumCapacity, p.2)

/-- `ArrayVector::reserve(new_capacity)`: no-op when `new_capacity <= capacity_`;
    otherwise allocate exactly `new_capacity` slots, copy the live elements over
    when `size_ > 0`, release the old block (a no-op on the model memory), and
    update the data pointer and capacity. -/
def reserve (a : ArrayVector) (new_capacity : Nat) (h : Heap α) : ArrayVector × Heap α :=
  if new_capacity ≤ a.capacity_ then (a, h)
  else
    let p := reserve_raw h new_capacity
    let m1 := if a.size_ > 0 then copyFwd p.2.mem p.1 a.data_ a.size_ else p.2.mem
    (ArrayVector.mk (ArrayVectorView.mk a.size_ p.1) new_capacity,
     Heap.mk m1 p.2.next)

/-- `ArrayVector::reserve()`, the zero-argument growth policy: raise a zero
    capacity to `minimumCapacity`, double a full capacity, otherwise do nothing. -/
def reserveGrow (a : ArrayVector) (h : Heap α) : ArrayVector × Heap α :=
  if a.capacity_ = 0 then reserve a minimumCapacity h
  else if a.size_ = a.capacity_ then reserve a (2 * a.capacity_) h
  else (a, h)

/-- `ArrayVector::push_back(t)`: grow via `reserve()` if needed, construct the
    value at slot `size_`, increment the size.  The C++ argument is a reference;
    because `deallocate` leaves the model memory intact, passing the value read
    at call time is observationally identical even when `reserve()` reallocates. -/
def push_back (a : ArrayVector) (v : α) (h : Heap α) : ArrayVector × Heap α :=
  let p := reserveGrow a h
  (ArrayVector.mk (ArrayVectorView.mk (p.1.size_ + 1) p.1.data_) p.1.capacity_,
   Heap.mk (writeMem p.2.mem (p.1.data_ + p.1.size_) v) p.2.next)

/-- `ArrayVector::pop_back()`: destroy the top slot (a no-op on the model
    memory) and decrement the size. -/
def pop_back (a : ArrayVector) : ArrayVector :=
  ArrayVector.mk (ArrayVectorView.mk (a.size_ - 1) a.data_) a.capacity_

/-- `ArrayVector::insert(p, v)` with `pos = p - begin()`: `push_back` when
    inserting at the end; otherwise `push_back(back())`, shift
    `[pos, size-2)` one slot up via `std::copy_backward(p, end()-2, end()-1)`,
    then overwrite slot `pos`. -/
def insertOne (a : ArrayVector) (pos : Nat) (v : α) (h : Heap α) : ArrayVector × Heap α :=
  if pos = a.size_ then push_back a v h
  else
    let b := h.mem (a.data_ + (a.size_ - 1))
    let p := push_back a b h
    let a1 := p.1
    let cnt := a1.size_ - 2 - pos
    let m1 := copyBwd p.2.mem (a1.data_ + pos + 1) (a1.data_ + pos) cnt
    (a1, Heap.mk (writeMem m1 (a1.data_ + pos) v) p.2.next)

/-- `ArrayVector::insert(p, n, v)`, the bulk fill form, with `pos = p - begin()`.
    Three branches on `new_size = size_ + n`:
    reallocation when `new_size >= capacity_`; tail-overlapping in-place
    insertion when `pos + n >= size_`; interior in-place insertion otherwise. -/
def insertFill (a : ArrayVector) (pos n : Nat) (v : α) (h : Heap α) : ArrayVector × Heap α :=
  let new_size := a.size_ + n
  if new_size ≥ a.capacity_ then
    let p := reserve_raw h new_size
    let new_data := p.1
    let m1 := copyFwd p.2.mem new_data a.data_ pos
    let m2 := fillMem m1 (new_data + pos) n v
    let m3 := copyFwd m2 (new_data + pos + n) (a.data_ + pos) (a.size_ - pos)
    (ArrayVector.mk (ArrayVectorView.mk new_size new_data) new_size,
     Heap.mk m3 p.2.next)
  else if pos + n ≥ a.size_ then
    let diff := pos + n - a.size_
    let m1 := copyFwd h.mem (a.data_ + a.size_ + diff) (a.data_ + pos) (a.size_ - pos)
    let m2 := fillMem m1 (a.data_ + a.size_) diff v
    let m3 := fillMem m2 (a.data_ + pos) (a.size_ - pos) v
    (ArrayVector.mk (ArrayVectorView.mk new_size a.data_) a.capacity_,
     Heap.mk m3 h.next)
  else
    let diff := a.size_ - (pos + n)
    let m1 := copyFwd h.mem (a.data_ + a.size_) (a.data_ + a.size_ - n) n
    let m2 := copyBwd m1 (a.data_ + a.size_ - diff) (a.data_ + pos) diff
    let m3 := fillMem m2 (a.data_ + pos) n v
    (ArrayVector.mk (ArrayVectorView.mk new_size a.data_) a.capacity_,
     Heap.mk m3 h.next)

/-- `ArrayVector::erase(p)` with `pos = p - begin()`: shift the tail down with
    `std::copy(p+1, end(), p)`, then `pop_back()`. -/
def erase (a : ArrayVector) (pos : Nat) (h : Heap α) : ArrayVector × Heap α :=
  let m1 := copyFwd h.mem (a.data_ + pos) (a.data_ + pos + 1) (a.size_ - pos - 1)
  (pop_back a, Heap.mk m1 h.next)

/-- `ArrayVector(this_type const & rhs)` (copy constructor), with fallible
    allocation: `capacity_ = rhs.capacity_`, allocate, and
    `std::uninitialized_copy` the live elements when `size_ > 0`. -/
def copyCtorF (rhs : ArrayVector) (h : Heap α) (limit : Nat) :
    Except VigraError (ArrayVector × Heap α) :=
  match reserve_raw_f h rhs.capacity_ limit with
  | .error e => .error e
  | .ok (d, h1) =>
    let m1 := if rhs.size_ > 0 then copyFwd h1.mem d rhs.data_ rhs.size_ else h1.mem
    .ok (ArrayVector.mk (ArrayVectorView.mk rhs.size_ d) rhs.capacity_,
         Heap.mk m1 h1.next)

/-- Result of `ArrayVector::operator=`: possible error, the left-hand array
    after the operation, and the heap after the operation.  On error the array
    and heap at the moment the exception escapes are returned. -/
structure AssignResult (α : Type) : Type where
  err : Option VigraError
  res : ArrayVector
  heap : Heap α

/-- `ArrayVector::operator=(this_type const & rhs)` for distinct objects
    (the `this == &rhs` early return is outside the claims): in-place
    `copyImpl` when the sizes match, otherwise copy-and-swap — build a full
    temporary copy of `rhs` and exchange internals with it via `swap`.
    The temporary holding the old internals is destroyed at scope end
    (a no-op on the model memory).  If the temporary's construction fails,
    the exception propagates before anything is mutated. -/
def assignAV (dst rhs : ArrayVector) (h : Heap α) (limit : Nat) : AssignResult α :=
  if dst.size_ = rhs.size_ then
    match copyImpl dst.toArrayVectorView rhs.toArrayVectorView h.mem with
    | .ok m1 => AssignResult.mk none dst (Heap.mk m1 h.next)
    | .error e => AssignResult.mk (some e) dst h
  else
    match copyCtorF rhs h limit with
    | .ok (t, h1) => AssignResult.mk none t h1
    | .error e => AssignResult.mk (some e) dst h

/-- Well-formed owning array: live elements fit in the capacity and the owned
    block lies below the allocation frontier (so fresh blocks are disjoint
    from it). -/
def WF (a : ArrayVector) (h : Heap α) : Prop :=
  a.size_ ≤ a.capacity_ ∧ a.data_ + a.capacity_ ≤ h.next

/-- The live element sequence of an owning array. -/
def contents (a : ArrayVector) (h : Heap α) : List α :=
  readList h.mem a.data_ a.size_

/-- The direction-choosing body of `copyImpl` (after the shape check):
    forward copy when `data_ <= rhs.data()`, backward copy otherwise. -/
def copyDir (dst src : ArrayVectorView) (m : Mem α) : Mem α :=
  if dst.data_ ≤ src.data_ then copyFwd m dst.data_ src.data_ dst.size_
  else copyBwd m dst.data_ src.data_ dst.size_

/-- Memory holding a given finite integer sequence from address 0 on. -/
def listMem (l : List Int) : Mem Int :=
  fun k => l.getD k 0

/-- The four-element memory `[1, 2, 3, 4]` of the overlapping-swap scenario. -/
def mem0 : Mem Int := listMem [1, 2, 3, 4]

/-- Run `swapData` once and read back the window `[a, a+n)`. -/
def runSwap (v1 v2 : ArrayVectorView) (m : Mem α) (a n : Nat) : Option (List α) :=
  match swapData v1 v2 m with
  | .ok m1 => some (readList m1 a n)
  | .error _ => none

/-- Run `swapData` twice with the same arguments and read back `[a, a+n)`. -/
def runSwapTwice (v1 v2 : ArrayVectorView) (m : Mem α) (a n : Nat) : Option (List α) :=
  match swapData v1 v2 m with
  | .ok m1 =>
    match swapData v1 v2 m1 with
    | .ok m2 => some (readList m2 a n)
    | .error _ => none
  | .error _ => none

/-- Concrete array fixture builder for the witness theorems. -/
def wArr (size data cap : Nat) : ArrayVector :=
  ArrayVector.mk (ArrayVectorView.mk size data) cap

/-- Concrete heap fixture builder for the witness theorems. -/
def wHeap (l : List Int) (n : Nat) : Heap Int :=
  Heap.mk (listMem l) n

/-! ### Basic lemmas about the memory primitives -/

theorem writeMem_same (m : Mem α) (i : Nat) (v : α) : writeMem m i v i = v := by
  simp [writeMem]

theorem writeMem_other (m : Mem α) {i x : Nat} (v : α) (hx : x ≠ i) :
    writeMem m i v x = m x := by
  simp [writeMem, hx]

theorem copyFwd_frame (n : Nat) :
    ∀ (m : Mem α) (d s x : Nat), (x < d ∨ d + n ≤ x) → copyFwd m d s n x = m x := by
  induction n with
  | zero => intro m d s x _; rfl
  | succ k ih =>
    intro m d s x hx
    have h1 : copyFwd m d s (k + 1) x = copyFwd (writeMem m d (m s)) (d + 1) (s + 1) k x := rfl
    rw [h1, ih _ _ _ _ (by omega)]
    exact writeMem_other m (m s) (by omega)

theorem copyFwd_reads (n : Nat) :
    ∀ (m : Mem α) (d s : Nat), (d ≤ s ∨ s + n ≤ d) →
      ∀ k, k < n → copyFwd m d s n (d + k) = m (s + k) := by
  induction n with
  | zero => intro m d s _ k hk; omega
  | succ nn ih =>
    intro m d s hds k hk
    cases k with
    | zero =>
      have h1 : copyFwd m d s (nn + 1) (d + 0) =
          copyFwd (writeMem m d (m s)) (d + 1) (s + 1) nn d := rfl
      rw [h1, copyFwd_frame nn _ _ _ _ (Or.inl (by omega))]
      simp [writeMem]
    | succ j =>
      have h1 : copyFwd m d s (nn + 1) = copyFwd (writeMem m d (m s)) (d + 1) (s + 1) nn := rfl
      have e1 : d + (j + 1) = (d + 1) + j := by omega
      have e2 : s + (j + 1) = (s + 1) + j := by omega
      rw [h1, e1, e2, ih _ _ _ (by omega) j (by omega)]
      exact writeMem_other m (m s) (by omega)

theorem copyBwd_frame (n : Nat) :
    ∀ (m : Mem α) (d s x : Nat), (x < d ∨ d + n ≤ x) → copyBwd m d s n x = m x := by
  induction n with
  | zero => intro m d s x _; rfl
  | succ k ih =>
    intro m d s x hx
    have h1 : copyBwd m d s (k + 1) x =
        copyBwd (writeMem m (d + k) (m (s + k))) d s k x := rfl
    rw [h1, ih _ _ _ _ (by omega)]
    exact writeMem_other m (m (s + k)) (by omega)

theorem copyBwd_reads (n : Nat) :
    ∀ (m : Mem α) (d s : Nat), (s ≤ d ∨ d + n ≤ s) →
      ∀ k, k < n → copyBwd m d s n (d + k) = m (s + k) := by
  induction n with
  | zero => intro m d s _ k hk; omega
  | succ nn ih =>
    intro m d s hds k hk
    have h1 : copyBwd m d s (nn + 1) =
        copyBwd (writeMem m (d + nn) (m (s + nn))) d s nn := rfl
    by_cases hkn : k = nn
    · rw [hkn, h1, copyBwd_frame nn _ _ _ _ (Or.inr (le_refl _))]
      simp [writeMem]
    · rw [h1, ih _ _ _ (by omega) k (by omega)]
      exact writeMem_other m (m (s + nn)) (by omega)

theorem fillMem_frame (n : Nat) :
    ∀ (m : Mem α) (d x : Nat) (v : α), (x < d ∨ d + n ≤ x) → fillMem m d n v x = m x := by
  induction n with
  | zero => intro m d x v _; rfl
  | succ k ih =>
    intro m d x v hx
    have h1 : fillMem m d (k + 1) v x = fillMem (writeMem m d v) (d + 1) k v x := rfl
    rw [h1, ih _ _ _ _ (by omega)]
    exact writeMem_other m v (by omega)

theorem fillMem_reads (n : Nat) :
    ∀ (m : Mem α) (d : Nat) (v : α), ∀ k, k < n → fillMem m d n v (d + k) = v := by
  induction n with
  | zero => intro m d v k hk; omega
  | succ nn ih =>
    intro m d v k hk
    have h1 : fillMem m d (nn + 1) v = fillMem (writeMem m d v) (d + 1) nn v := rfl
    cases k with
    | zero =>
      have h2 : fillMem m d (nn + 1) v (d + 0) =
          fillMem (writeMem m d v) (d + 1) nn v d := rfl
      rw [h2, fillMem_frame nn _ _ _ _ (Or.inl (by omega)), writeMem_same]
    | succ j =>
      have e1 : d + (j + 1) = (d + 1) + j := by omega
      rw [h1, e1, ih _ _ _ j (by omega)]

/-! ### Lemmas about the swap loop -/

theorem swapPair_invol (m : Mem α) (i j : Nat) : swapPair (swapPair m i j) i j = m := by
  funext x
  simp only [swapPair, writeMem]
  split_ifs <;> simp_all

theorem swapPair_comm (m : Mem α) {i j k l : Nat}
    (h1 : i ≠ k) (h2 : i ≠ l) (h3 : j ≠ k) (h4 : j ≠ l) :
    swapPair (swapPair m i j) k l = swapPair (swapPair m k l) i j := by
  funext x
  simp only [swapPair, writeMem]
  split_ifs <;> simp_all

theorem swapPair_swapLoop_comm (n : Nat) :
    ∀ (m : Mem α) (a b i j : Nat),
      (∀ k, k < n → i ≠ a + k ∧ i ≠ b + k ∧ j ≠ a + k ∧ j ≠ b + k) →
      swapPair (swapLoop m a b n) i j = swapLoop (swapPair m i j) a b n := by
  induction n with
  | zero => intro m a b i j _; rfl
  | succ nn ih =>
    intro m a b i j hdis
    obtain ⟨p1, p2, p3, p4⟩ := hdis 0 (by omega)
    have h1 : swapLoop m a b (nn + 1) = swapLoop (swapPair m a b) (a + 1) (b + 1) nn := rfl
    have h2 : swapLoop (swapPair m i j) a b (nn + 1) =
        swapLoop (swapPair (swapPair m i j) a b) (a + 1) (b + 1) nn := rfl
    rw [h1, h2,
        ih (swapPair m a b) (a + 1) (b + 1) i j (fun k hk => by
          obtain ⟨q1, q2, q3, q4⟩ := hdis (k + 1) (by omega)
          exact ⟨by omega, by omega, by omega, by omega⟩),
        swapPair_comm m (by omega) (by omega) (by omega) (by omega)]

theorem swapLoop_invol (n : Nat) :
    ∀ (m : Mem α) (a b : Nat), (∀ i j, i < n → j < n → a + i ≠ b + j) →
      swapLoop (swapLoop m a b n) a b n = m := by
  induction n with
  | zero => intro m a b _; rfl
  | succ nn ih =>
    intro m a b hd
    have h1 : swapLoop m a b (nn + 1) = swapLoop (swapPair m a b) (a + 1) (b + 1) nn := rfl
    have h2 : ∀ (mm : Mem α), swapLoop mm a b (nn + 1) =
        swapLoop (swapPair mm a b) (a + 1) (b + 1) nn := fun _ => rfl
    rw [h1, h2,
        swapPair_swapLoop_comm nn (swapPair m a b) (a + 1) (b + 1) a b (fun k hk => by
          have q1 := hd 0 (k + 1) (by omega) (by omega)
          have q2 := hd (k + 1) 0 (by omega) (by omega)
          exact ⟨by omega, by omega, by omega, by omega⟩),
        swapPair_invol,
        ih _ _ _ (fun i j hi hj => by
          have := hd (i + 1) (j + 1) (by omega) (by omega)
          omega)]

/-! ### Lemmas about `readList` -/

theorem readList_zero (m : Mem α) (a : Nat) : readList m a 0 = [] := rfl

theorem readList_succ (m : Mem α) (a n : Nat) :
    readList m a (n + 1) = readList m a n ++ [m (a + n)] := by
  simp [readList, List.range_succ]

theorem readList_congr {m1 m2 : Mem α} {a1 a2 : Nat} (n : Nat)
    (h : ∀ k, k < n → m1 (a1 + k) = m2 (a2 + k)) :
    readList m1 a1 n = readList m2 a2 n := by
  induction n with
  | zero => rfl
  | succ nn ih =>
    rw [readList_succ, readList_succ, ih (fun k hk => h k (by omega)), h nn (by omega)]

/-! ### View-level copy correctness -/

theorem copyImpl_ok (v1 v2 : ArrayVectorView) (m : Mem α) (hsz : v1.size_ = v2.size_) :
    copyImpl v1 v2 m = .ok (copyDir v1 v2 m) := by
  unfold copyImpl copyDir
  rw [if_pos hsz]
  split <;> rfl

theorem copyDir_reads (v1 v2 : ArrayVectorView) (m : Mem α) :
    ∀ k, k < v1.size_ → copyDir v1 v2 m (v1.data_ + k) = m (v2.data_ + k) := by
  intro k hk
  unfold copyDir
  split_ifs with hle
  · exact copyFwd_reads _ _ _ _ (Or.inl hle) k hk
  · exact copyBwd_reads _ _ _ _ (Or.inl (by omega)) k hk

/-! ### Array-level helper lemmas -/

theorem reserve_of_le (a : ArrayVector) (n : Nat) (h : Heap α) (hle : n ≤ a.capacity_) :
    reserve a n h = (a, h) := by
  unfold reserve
  rw [if_pos hle]

theorem reserve_of_gt (a : ArrayVector) (n : Nat) (h : Heap α) (hgt : a.capacity_ < n) :
    reserve a n h =
      (ArrayVector.mk (ArrayVectorView.mk a.size_ h.next) n,
       Heap.mk (if a.size_ > 0 then copyFwd h.mem h.next a.data_ a.size_ else h.mem)
         (h.next + n)) := by
  unfold reserve reserve_raw
  rw [if_neg (by omega : ¬ n ≤ a.capacity_), if_neg (by omega : ¬ n = 0)]

theorem reserve_spec (a : ArrayVector) (n : Nat) (h : Heap α) (hwf : WF a h) :
    (reserve a n h).1.size_ = a.size_
  ∧ a.capacity_ ≤ (reserve a n h).1.capacity_
  ∧ WF (reserve a n h).1 (reserve a n h).2
  ∧ (∀ k, k < a.size_ →
      (reserve a n h).2.mem ((reserve a n h).1.data_ + k) = h.mem (a.data_ + k))
  ∧ (a.capacity_ < n → (reserve a n h).1.capacity_ = n) := by
  obtain ⟨hsc, hcn⟩ := hwf
  by_cases hle : n ≤ a.capacity_
  · rw [reserve_of_le a n h hle]
    exact ⟨rfl, le_refl _, ⟨hsc, hcn⟩, fun k hk => rfl, fun hlt => by omega⟩
  · rw [reserve_of_gt a n h (by omega)]
    refine ⟨rfl, show a.capacity_ ≤ n by omega,
      ⟨show a.size_ ≤ n by omega, show h.next + n ≤ h.next + n from le_refl _⟩,
      ?_, fun _ => rfl⟩
    intro k hk
    show (if a.size_ > 0 then copyFwd h.mem h.next a.data_ a.size_ else h.mem) (h.next + k)
        = h.mem (a.data_ + k)
    rw [if_pos (by omega : a.size_ > 0)]
    exact copyFwd_reads a.size_ h.mem h.next a.data_ (Or.inr (by omega)) k hk

theorem reserveGrow_spec (a : ArrayVector) (h : Heap α) (hwf : WF a h) :
    (reserveGrow a h).1.size_ = a.size_
  ∧ (reserveGrow a h).1.capacity_
      = (if a.capacity_ = 0 then minimumCapacity
         else if a.size_ = a.capacity_ then 2 * a.capacity_ else a.capacity_)
  ∧ a.size_ < (reserveGrow a h).1.capacity_
  ∧ WF (reserveGrow a h).1 (reserveGrow a h).2
  ∧ (∀ k, k < a.size_ →
      (reserveGrow a h).2.mem ((reserveGrow a h).1.data_ + k) = h.mem (a.data_ + k)) := by
  obtain ⟨hsc, hcn⟩ := hwf
  unfold reserveGrow
  by_cases hc0 : a.capacity_ = 0
  · rw [if_pos hc0]
    obtain ⟨r1, r2, r3, r4, r5⟩ := reserve_spec a minimumCapacity h ⟨hsc, hcn⟩
    have hcap := r5 (by rw [hc0]; decide)
    rw [if_pos hc0]
    exact ⟨r1, hcap, by rw [hcap]; unfold minimumCapacity; omega, r3, r4⟩
  · rw [if_neg hc0, if_neg hc0]
    by_cases hsf : a.size_ = a.capacity_
    · rw [if_pos hsf, if_pos hsf]
      obtain ⟨r1, r2, r3, r4, r5⟩ := reserve_spec a (2 * a.capacity_) h ⟨hsc, hcn⟩
      have hcap := r5 (by omega)
      exact ⟨r1, hcap, by rw [hcap]; omega, r3, r4⟩
    · rw [if_neg hsf, if_neg hsf]
      exact ⟨rfl, rfl, show a.size_ < a.capacity_ by omega, ⟨hsc, hcn⟩, fun k hk => rfl⟩

theorem push_back_spec (a : ArrayVector) (v : α) (h : Heap α) (hwf : WF a h) :
    (push_back a v h).1.size_ = a.size_ + 1
  ∧ (push_back a v h).1.capacity_ = (reserveGrow a h).1.capacity_
  ∧ WF (push_back a v h).1 (push_back a v h).2
  ∧ (∀ k, k < a.size_ →
      (push_back a v h).2.mem ((push_back a v h).1.data_ + k) = h.mem (a.data_ + k))
  ∧ (push_back a v h).2.mem ((push_back a v h).1.data_ + a.size_) = v := by
  obtain ⟨g1, g2, g3, g4, g5⟩ := reserveGrow_spec a h hwf
  obtain ⟨w1, w2⟩ := g4
  refine ⟨?_, rfl, ⟨?_, ?_⟩, ?_, ?_⟩
  · show (reserveGrow a h).1.size_ + 1 = a.size_ + 1
    rw [g1]
  · show (reserveGrow a h).1.size_ + 1 ≤ (reserveGrow a h).1.capacity_
    omega
  · show (reserveGrow a h).1.data_ + (reserveGrow a h).1.capacity_ ≤ (reserveGrow a h).2.next
    exact w2
  · intro k hk
    show writeMem (reserveGrow a h).2.mem
        ((reserveGrow a h).1.data_ + (reserveGrow a h).1.size_) v
        ((reserveGrow a h).1.data_ + k) = h.mem (a.data_ + k)
    rw [writeMem_other _ _ (by omega)]
    exact g5 k hk
  · show writeMem (reserveGrow a h).2.mem
        ((reserveGrow a h).1.data_ + (reserveGrow a h).1.size_) v
        ((reserveGrow a h).1.data_ + a.size_) = v
    rw [← g1, writeMem_same]

theorem insertOne_of_lt (a : ArrayVector) (pos : Nat) (v : α) (h : Heap α)
    (hne : ¬ pos = a.size_) :
    insertOne a pos v h =
      ((push_back a (h.mem (a.data_ + (a.size_ - 1))) h).1,
       Heap.mk
         (writeMem
           (copyBwd (push_back a (h.mem (a.data_ + (a.size_ - 1))) h).2.mem
             ((push_back a (h.mem (a.data_ + (a.size_ - 1))) h).1.data_ + pos + 1)
             ((push_back a (h.mem (a.data_ + (a.size_ - 1))) h).1.data_ + pos)
             ((push_back a (h.mem (a.data_ + (a.size_ - 1))) h).1.size_ - 2 - pos))
           ((push_back a (h.mem (a.data_ + (a.size_ - 1))) h).1.data_ + pos) v)
         (push_back a (h.mem (a.data_ + (a.size_ - 1))) h).2.next) := by
  unfold insertOne
  rw [if_neg hne]

theorem insertOne_spec (a : ArrayVector) (pos : Nat) (v : α) (h : Heap α)
    (hwf : WF a h) (hpos : pos ≤ a.size_) :
    (insertOne a pos v h).1.size_ = a.size_ + 1
  ∧ WF (insertOne a pos v h).1 (insertOne a pos v h).2
  ∧ (∀ k, k < pos →
      (insertOne a pos v h).2.mem ((insertOne a pos v h).1.data_ + k) = h.mem (a.data_ + k))
  ∧ (insertOne a pos v h).2.mem ((insertOne a pos v h).1.data_ + pos) = v
  ∧ (∀ k, pos ≤ k → k < a.size_ →
      (insertOne a pos v h).2.mem ((insertOne a pos v h).1.data_ + (k + 1))
        = h.mem (a.data_ + k)) := by
  by_cases hpe : pos = a.size_
  · have he : insertOne a pos v h = push_back a v h := by
      unfold insertOne; rw [if_pos hpe]
    rw [he]
    obtain ⟨p1, p2, p3, p4, p5⟩ := push_back_spec a v h hwf
    refine ⟨p1, p3, fun k hk => p4 k (by omega), ?_, fun k h1 h2 => by omega⟩
    rw [hpe]
    exact p5
  · rw [insertOne_of_lt a pos v h hpe]
    have hlt : pos < a.size_ := by omega
    obtain ⟨p1, p2, p3, p4, p5⟩ :=
      push_back_spec a (h.mem (a.data_ + (a.size_ - 1))) h hwf
    obtain ⟨w1, w2⟩ := p3
    set P := push_back a (h.mem (a.data_ + (a.size_ - 1))) h with hP
    refine ⟨p1, ⟨w1, w2⟩, ?_, ?_, ?_⟩
    · intro k hk
      show writeMem
          (copyBwd P.2.mem (P.1.data_ + pos + 1) (P.1.data_ + pos) (P.1.size_ - 2 - pos))
          (P.1.data_ + pos) v (P.1.data_ + k) = h.mem (a.data_ + k)
      rw [writeMem_other _ _ (by omega),
          copyBwd_frame _ _ _ _ _ (Or.inl (by omega))]
      exact p4 k (by omega)
    · show writeMem
          (copyBwd P.2.mem (P.1.data_ + pos + 1) (P.1.data_ + pos) (P.1.size_ - 2 - pos))
          (P.1.data_ + pos) v (P.1.data_ + pos) = v
      rw [writeMem_same]
    · intro k h1 h2
      show writeMem
          (copyBwd P.2.mem (P.1.data_ + pos + 1) (P.1.data_ + pos) (P.1.size_ - 2 - pos))
          (P.1.data_ + pos) v (P.1.data_ + (k + 1)) = h.mem (a.data_ + k)
      rw [writeMem_other _ _ (by omega)]
      by_cases hke : k = a.size_ - 1
      · have e1 : P.1.data_ + (k + 1) = P.1.data_ + a.size_ := by omega
        have e2 : P.1.size_ - 2 - pos = a.size_ - 1 - pos := by omega
        rw [e1, e2, copyBwd_frame _ _ _ _ _ (Or.inr (by omega)), p5]
        have e3 : a.size_ - 1 = k := by omega
        rw [e3]
      · have e1 : P.1.data_ + (k + 1) = (P.1.data_ + pos + 1) + (k - pos) := by omega
        have e2 : P.1.size_ - 2 - pos = a.size_ - 1 - pos := by omega
        rw [e1, e2, copyBwd_reads _ _ _ _ (Or.inl (by omega)) (k - pos) (by omega)]
        have e3 : P.1.data_ + pos + (k - pos) = P.1.data_ + k := by omega
        rw [e3]
        exact p4 k (by omega)

theorem erase_spec (a : ArrayVector) (pos : Nat) (h : Heap α) :
    (erase a pos h).1.size_ = a.size_ - 1
  ∧ (erase a pos h).1.data_ = a.data_
  ∧ (erase a pos h).1.capacity_ = a.capacity_
  ∧ (erase a pos h).2.next = h.next
  ∧ (∀ k, k < pos → (erase a pos h).2.mem (a.data_ + k) = h.mem (a.data_ + k))
  ∧ (∀ k, pos ≤ k → k + 1 < a.size_ →
      (erase a pos h).2.mem (a.data_ + k) = h.mem (a.data_ + (k + 1))) := by
  refine ⟨rfl, rfl, rfl, rfl, ?_, ?_⟩
  · intro k hk
    show copyFwd h.mem (a.data_ + pos) (a.data_ + pos + 1) (a.size_ - pos - 1) (a.data_ + k)
        = h.mem (a.data_ + k)
    exact copyFwd_frame _ _ _ _ _ (Or.inl (by omega))
  · intro k h1 h2
    show copyFwd h.mem (a.data_ + pos) (a.data_ + pos + 1) (a.size_ - pos - 1) (a.data_ + k)
        = h.mem (a.data_ + (k + 1))
    have e1 : a.data_ + k = (a.data_ + pos) + (k - pos) := by omega
    have e2 : a.data_ + (k + 1) = (a.data_ + pos + 1) + (k - pos) := by omega
    rw [e1, e2]
    exact copyFwd_reads _ _ _ _ (Or.inl (by omega)) (k - pos) (by omega)

/-- Claim C1, counterexample: on the Array `[1, 2, 3, 4]`, `swapData` between
    `subarray(0,3)` and `subarray(1,4)` does NOT leave the memory holding
    `[2, 3, 4, 1]` (it leaves `[2, 2, 3, 4]`), so the claimed result is false. -/
theorem claim1_counterexample :
    readList mem0 0 4 = [1, 2, 3, 4]
  ∧ runSwap (ArrayVectorView.mk 3 0) (ArrayVectorView.mk 3 1) mem0 0 4 ≠ some [2, 3, 4, 1] :=
  ⟨by decide, by decide⟩

/-- Claim C1, amended: in the partially-overlapping branch the code constructs an
    independent temporary copy of this view but never reads it again; it copies
    rhs into this view and then copies the already-overwritten this view into
    rhs.  On `[1, 2, 3, 4]` with `subarray(0,3)` and `subarray(1,4)` the memory
    becomes `[2, 2, 3, 4]`, and the overall result is exactly the composition of
    the two aliasing copies. -/
theorem claim1_amended :
    subarray (ArrayVectorView.mk 4 0) 0 3 = .ok (ArrayVectorView.mk 3 0)
  ∧ subarray (ArrayVectorView.mk 4 0) 1 4 = .ok (ArrayVectorView.mk 3 1)
  ∧ runSwap (ArrayVectorView.mk 3 0) (ArrayVectorView.mk 3 1) mem0 0 4 = some [2, 2, 3, 4]
  ∧ swapData (ArrayVectorView.mk 3 0) (ArrayVectorView.mk 3 1) mem0
      = (copyImpl (ArrayVectorView.mk 3 0) (ArrayVectorView.mk 3 1) mem0).bind
          (fun m1 => copyImpl (ArrayVectorView.mk 3 1) (ArrayVectorView.mk 3 0) m1) :=
  ⟨rfl, rfl, by decide, rfl⟩

/-- Claim C2, counterexample: `swapData` is not self-inverse for partially
    overlapping ranges: applying it twice to `subarray(0,3)` and `subarray(1,4)`
    of `[1, 2, 3, 4]` does not restore `[1, 2, 3, 4]`. -/
theorem claim2_counterexample :
    readList mem0 0 4 = [1, 2, 3, 4]
  ∧ runSwapTwice (ArrayVectorView.mk 3 0) (ArrayVectorView.mk 3 1) mem0 0 4 ≠ some [1, 2, 3, 4] :=
  ⟨by decide, by decide⟩

/-- Claim C2, amended: for equal-length views whose ranges are identical (same
    start address) or disjoint, applying `swapData` twice with the same argument
    restores the original memory exactly; for partially overlapping ranges it
    does not (see the counterexample). -/
theorem claim2_amended (v1 v2 : ArrayVectorView) (m : Mem α)
    (hsz : v1.size_ = v2.size_)
    (hcase : v1.data_ = v2.data_
        ∨ v1.data_ + v1.size_ ≤ v2.data_ ∨ v2.data_ + v2.size_ ≤ v1.data_) :
    (swapData v1 v2 m).bind (fun m1 => swapData v1 v2 m1) = .ok m := by
  by_cases hde : v1.data_ = v2.data_
  · have h1 : ∀ mm : Mem α, swapData v1 v2 mm = .ok mm := by
      intro mm; unfold swapData; rw [if_pos hde]
    rw [h1 m]
    show swapData v1 v2 m = .ok m
    exact h1 m
  · have hd : v1.data_ + v1.size_ ≤ v2.data_ ∨ v2.data_ + v2.size_ ≤ v1.data_ := by
      rcases hcase with he | h | h
      · exact absurd he hde
      · exact Or.inl h
      · exact Or.inr h
    have hcond : v1.data_ + v1.size_ ≤ v2.data_ ∨ v2.data_ + v1.size_ ≤ v1.data_ := by
      rcases hd with h | h
      · exact Or.inl h
      · exact Or.inr (by omega)
    have hstep : ∀ mm : Mem α,
        swapData v1 v2 mm = .ok (swapLoop mm v1.data_ v2.data_ v1.size_) := by
      intro mm
      unfold swapData swapDataImpl
      rw [if_neg hde, if_pos hsz, if_pos hcond]
    rw [hstep m]
    show swapData v1 v2 (swapLoop m v1.data_ v2.data_ v1.size_) = .ok m
    rw [hstep _]
    exact congrArg Except.ok (swapLoop_invol _ _ _ _ (fun i j hi hj => by omega))

/-- Claim C2, witness: two disjoint length-2 views over `[1, 2, 3, 4]`;
    swapping twice restores the memory. -/
theorem claim2_witness :
    (swapData (ArrayVectorView.mk 2 0) (ArrayVectorView.mk 2 2) mem0).bind
      (fun m1 => swapData (ArrayVectorView.mk 2 0) (ArrayVectorView.mk 2 2) m1) = .ok mem0 :=
  claim2_amended _ _ _ rfl (Or.inr (Or.inl (by decide)))

/-- Claim C3: for equal-length overlapping views, `copyImpl` succeeds, iterating
    forward when this view's start address is at most rhs's and backward
    otherwise (`copyDir`), and the destination ends up holding the source's
    original element sequence. -/
theorem claim3_copy_alias (v1 v2 : ArrayVectorView) (m : Mem α)
    (hsz : v1.size_ = v2.size_) (_hov : Overlap v1 v2) :
    copyImpl v1 v2 m = .ok (copyDir v1 v2 m)
  ∧ readList (copyDir v1 v2 m) v1.data_ v1.size_ = readList m v2.data_ v1.size_ :=
  ⟨copyImpl_ok v1 v2 m hsz,
   readList_congr v1.size_ (copyDir_reads v1 v2 m)⟩

/-- Claim C3, witness: the overlapping views `(size 3, addr 0)` and
    `(size 3, addr 1)` over `[1, 2, 3, 4]`. -/
theorem claim3_witness :
    copyImpl (ArrayVectorView.mk 3 0) (ArrayVectorView.mk 3 1) mem0
      = .ok (copyDir (ArrayVectorView.mk 3 0) (ArrayVectorView.mk 3 1) mem0)
  ∧ readList (copyDir (ArrayVectorView.mk 3 0) (ArrayVectorView.mk 3 1) mem0) 0 3
      = readList mem0 1 3 :=
  claim3_copy_alias (ArrayVectorView.mk 3 0) (ArrayVectorView.mk 3 1) mem0 rfl (by decide)

/-- Claim C5, counterexample: two views with the identical start address but
    different lengths — `copy` is a silent no-op, it does not fail with
    ShapeMismatch as the claim states. -/
theorem claim5_counterexample :
    (ArrayVectorView.mk 2 5).size_ ≠ (ArrayVectorView.mk 3 5).size_
  ∧ (ArrayVectorView.mk 2 5).data_ = (ArrayVectorView.mk 3 5).data_
  ∧ copy (ArrayVectorView.mk 2 5) (ArrayVectorView.mk 3 5) mem0 = .ok mem0 :=
  ⟨by decide, rfl, rfl⟩

/-- Claim C5, amended: `copy(rhs)` fails with ShapeMismatch exactly when the
    lengths differ AND the start addresses differ; whenever the start addresses
    are identical — equal lengths or not — `copy` is a no-op; and when the
    lengths match and the start addresses differ it succeeds with the
    element-wise copy (no failure).  Together the three parts make the failure
    condition a biconditional: `copy` fails iff lengths differ and addresses
    differ. -/
theorem claim5_amended (v1 v2 : ArrayVectorView) (m : Mem α) :
    (v1.size_ ≠ v2.size_ → v1.data_ ≠ v2.data_ →
      copy v1 v2 m
        = .error (.preconditionViolation "ArrayVectorView::copy(): shape mismatch."))
  ∧ (v1.data_ = v2.data_ → copy v1 v2 m = .ok m)
  ∧ (v1.size_ = v2.size_ → v1.data_ ≠ v2.data_ →
      copy v1 v2 m = .ok (copyDir v1 v2 m)) := by
  refine ⟨?_, ?_, ?_⟩
  · intro hsz hdp
    unfold copy copyImpl
    rw [if_neg hdp, if_neg hsz]
  · intro hdp
    unfold copy
    rw [if_pos hdp]
  · intro hsz hdp
    unfold copy
    rw [if_neg hdp]
    exact copyImpl_ok v1 v2 m hsz

/-- Claim C4, counterexample: an Array with length 1 and capacity 2;
    `insert(0, 1, v)` has `newLength = 2 ≤ capacity`, yet the code reallocates
    (the branch condition is `new_size >= capacity_`, not `>`), so the buffer
    identity changes even though `newLength` does not exceed the capacity. -/
theorem claim4_counterexample :
    (wArr 1 1 2).size_ + 1 ≤ (wArr 1 1 2).capacity_
  ∧ (insertFill (wArr 1 1 2) 0 1 (9 : Int) (wHeap [0, 7] 2)).1.data_ ≠ (wArr 1 1 2).data_ :=
  ⟨by decide, by decide⟩

/-- Claim C4, amended: bulk `insert(position, count, value)` allocates a fresh
    buffer sized exactly `newLength` (capacity becomes `newLength`) whenever
    `newLength = length + count` is at least the current capacity; only when
    `newLength` is strictly below the capacity does the insertion stay in the
    existing buffer, with the data pointer, the capacity and the allocation
    frontier unchanged. -/
theorem claim4_amended (a : ArrayVector) (pos n : Nat) (v : α) (h : Heap α) :
    (a.capacity_ ≤ a.size_ + n → 0 < a.size_ + n →
        (insertFill a pos n v h).1.capacity_ = a.size_ + n
      ∧ (insertFill a pos n v h).1.data_ = h.next
      ∧ (insertFill a pos n v h).2.next = h.next + (a.size_ + n))
  ∧ (a.size_ + n < a.capacity_ →
        (insertFill a pos n v h).1.data_ = a.data_
      ∧ (insertFill a pos n v h).1.capacity_ = a.capacity_
      ∧ (insertFill a pos n v h).2.next = h.next) := by
  constructor
  · intro hge hpos
    simp only [insertFill, reserve_raw]
    rw [if_pos (show a.size_ + n ≥ a.capacity_ from hge),
        if_neg (by omega : ¬ a.size_ + n = 0)]
    exact ⟨rfl, rfl, rfl⟩
  · intro hlt
    simp only [insertFill]
    rw [if_neg (show ¬ a.size_ + n ≥ a.capacity_ by omega)]
    by_cases hpn : pos + n ≥ a.size_
    · rw [if_pos hpn]
      exact ⟨rfl, rfl, rfl⟩
    · rw [if_neg hpn]
      exact ⟨rfl, rfl, rfl⟩

/-- Claim C4, witness: the reallocating branch at `newLength = 2 ≥ capacity 2`
    and the in-place branch at `newLength = 2 < capacity 4`. -/
theorem claim4_witness :
    ((wArr 1 1 2).capacity_ ≤ (wArr 1 1 2).size_ + 1
      ∧ (insertFill (wArr 1 1 2) 0 1 (9 : Int) (wHeap [0, 7] 2)).1.capacity_ = 2
      ∧ (insertFill (wArr 1 1 2) 0 1 (9 : Int) (wHeap [0, 7] 2)).1.data_ = 2
      ∧ (insertFill (wArr 1 1 2) 0 1 (9 : Int) (wHeap [0, 7] 2)).2.next = 4)
  ∧ ((wArr 1 1 4).size_ + 1 < (wArr 1 1 4).capacity_
      ∧ (insertFill (wArr 1 1 4) 0 1 (9 : Int) (wHeap [0, 7] 2)).1.data_ = 1
      ∧ (insertFill (wArr 1 1 4) 0 1 (9 : Int) (wHeap [0, 7] 2)).1.capacity_ = 4
      ∧ (insertFill (wArr 1 1 4) 0 1 (9 : Int) (wHeap [0, 7] 2)).2.next = 2) := by
  obtain ⟨a1, a2, a3⟩ :=
    (claim4_amended (wArr 1 1 2) 0 1 (9 : Int) (wHeap [0, 7] 2)).1 (by decide) (by decide)
  obtain ⟨b1, b2, b3⟩ :=
    (claim4_amended (wArr 1 1 4) 0 1 (9 : Int) (wHeap [0, 7] 2)).2 (by decide)
  exact ⟨⟨by decide, a1, a2, a3⟩, ⟨by decide, b1, b2, b3⟩⟩

/-- Claim C6: `insert(position, v)` followed by `erase(position)` restores the
    original element sequence exactly, for every `position` in `[0, length]`. -/
theorem claim6_insert_erase (a : ArrayVector) (pos : Nat) (v : α) (h : Heap α)
    (hwf : WF a h) (hpos : pos ≤ a.size_) :
    (erase (insertOne a pos v h).1 pos (insertOne a pos v h).2).1.size_ = a.size_
  ∧ contents (erase (insertOne a pos v h).1 pos (insertOne a pos v h).2).1
      (erase (insertOne a pos v h).1 pos (insertOne a pos v h).2).2 = contents a h := by
  obtain ⟨i1, i2, i3, i4, i5⟩ := insertOne_spec a pos v h hwf hpos
  obtain ⟨e1, e2, e3, e4, e5, e6⟩ :=
    erase_spec (insertOne a pos v h).1 pos (insertOne a pos v h).2
  constructor
  · omega
  · unfold contents
    rw [e1, e2, i1, Nat.add_sub_cancel]
    apply readList_congr
    intro k hk
    by_cases hkp : k < pos
    · rw [e5 k hkp]
      exact i3 k hkp
    · rw [e6 k (by omega) (by omega)]
      exact i5 k (by omega) hk

/-- Claim C6, witness: `[1, 2, 3]`, `insert(1, 9)` gives `[1, 9, 2, 3]`, then
    `erase(1)` restores `[1, 2, 3]`. -/
theorem claim6_witness :
    WF (wArr 3 1 3) (wHeap [0, 1, 2, 3] 4)
  ∧ contents (wArr 3 1 3) (wHeap [0, 1, 2, 3] 4) = [1, 2, 3]
  ∧ contents (insertOne (wArr 3 1 3) 1 9 (wHeap [0, 1, 2, 3] 4)).1
      (insertOne (wArr 3 1 3) 1 9 (wHeap [0, 1, 2, 3] 4)).2 = [1, 9, 2, 3]
  ∧ contents (erase (insertOne (wArr 3 1 3) 1 9 (wHeap [0, 1, 2, 3] 4)).1 1
        (insertOne (wArr 3 1 3) 1 9 (wHeap [0, 1, 2, 3] 4)).2).1
      (erase (insertOne (wArr 3 1 3) 1 9 (wHeap [0, 1, 2, 3] 4)).1 1
        (insertOne (wArr 3 1 3) 1 9 (wHeap [0, 1, 2, 3] 4)).2).2 = [1, 2, 3] :=
  ⟨⟨by decide, by decide⟩, by decide, by decide,
   (claim6_insert_erase (wArr 3 1 3) 1 9 (wHeap [0, 1, 2, 3] 4)
      ⟨by decide, by decide⟩ (by decide)).2.trans (by decide)⟩

/-- Claim C7: assignment builds the temporary first; if its allocation fails
    with MemoryExhaustion the target array and the whole heap are returned
    completely unmodified; when the lengths match the copy happens in place
    (same array record, no allocation) and copies rhs's original elements;
    when the lengths differ and allocation succeeds, the internals are
    exchanged with the temporary: the result has rhs's length, rhs's capacity
    and rhs's element values. -/
theorem claim7_assign (dst rhs : ArrayVector) (h : Heap α) (limit : Nat)
    (hwf : WF rhs h) :
    (dst.size_ ≠ rhs.size_ → limit < rhs.capacity_ →
        assignAV dst rhs h limit = AssignResult.mk (some .memoryExhaustion) dst h)
  ∧ (dst.size_ = rhs.size_ →
        (assignAV dst rhs h limit).err = none
      ∧ (assignAV dst rhs h limit).res = dst
      ∧ (assignAV dst rhs h limit).heap.next = h.next
      ∧ readList (assignAV dst rhs h limit).heap.mem dst.data_ dst.size_
          = readList h.mem rhs.data_ rhs.size_)
  ∧ (dst.size_ ≠ rhs.size_ → rhs.capacity_ ≤ limit →
        (assignAV dst rhs h limit).err = none
      ∧ (assignAV dst rhs h limit).res.size_ = rhs.size_
      ∧ (assignAV dst rhs h limit).res.capacity_ = rhs.capacity_
      ∧ readList (assignAV dst rhs h limit).heap.mem
          (assignAV dst rhs h limit).res.data_ rhs.size_
          = readList h.mem rhs.data_ rhs.size_) := by
  obtain ⟨hsc, hcn⟩ := hwf
  refine ⟨?_, ?_, ?_⟩
  · intro hne hgt
    unfold assignAV copyCtorF reserve_raw_f
    rw [if_neg hne, if_neg (by omega : ¬ rhs.capacity_ = 0),
        if_neg (by omega : ¬ rhs.capacity_ ≤ limit)]
  · intro hsz
    have hok : copyImpl dst.toArrayVectorView rhs.toArrayVectorView h.mem
        = .ok (copyDir dst.toArrayVectorView rhs.toArrayVectorView h.mem) :=
      copyImpl_ok _ _ _ hsz
    have he : assignAV dst rhs h limit =
        AssignResult.mk none dst
          (Heap.mk (copyDir dst.toArrayVectorView rhs.toArrayVectorView h.mem) h.next) := by
      unfold assignAV
      rw [if_pos hsz, hok]
    rw [he]
    refine ⟨rfl, rfl, rfl, ?_⟩
    show readList (copyDir dst.toArrayVectorView rhs.toArrayVectorView h.mem)
        dst.data_ dst.size_ = readList h.mem rhs.data_ rhs.size_
    rw [hsz]
    apply readList_congr
    intro k hk
    exact copyDir_reads dst.toArrayVectorView rhs.toArrayVectorView h.mem k
      (show k < dst.size_ by omega)
  · intro hne hle
    by_cases hc0 : rhs.capacity_ = 0
    · have hs0 : rhs.size_ = 0 := by omega
      have he : assignAV dst rhs h limit =
          AssignResult.mk none
            (ArrayVector.mk (ArrayVectorView.mk rhs.size_ 0) rhs.capacity_)
            (Heap.mk
              (if rhs.size_ > 0 then copyFwd h.mem 0 rhs.data_ rhs.size_ else h.mem)
              h.next) := by
        unfold assignAV copyCtorF reserve_raw_f
        rw [if_neg hne, if_pos hc0]
      rw [he]
      refine ⟨rfl, rfl, rfl, ?_⟩
      rw [hs0]
      rfl
    · have he : assignAV dst rhs h limit =
          AssignResult.mk none
            (ArrayVector.mk (ArrayVectorView.mk rhs.size_ h.next) rhs.capacity_)
            (Heap.mk
              (if rhs.size_ > 0 then copyFwd h.mem h.next rhs.data_ rhs.size_ else h.mem)
              (h.next + rhs.capacity_)) := by
        unfold assignAV copyCtorF reserve_raw_f
        rw [if_neg hne, if_neg hc0, if_pos hle]
      rw [he]
      refine ⟨rfl, rfl, rfl, ?_⟩
      apply readList_congr
      intro k hk
      show (if rhs.size_ > 0 then copyFwd h.mem h.next rhs.data_ rhs.size_ else h.mem)
          (h.next + k) = h.mem (rhs.data_ + k)
      rw [if_pos (by omega : rhs.size_ > 0)]
      exact copyFwd_reads rhs.size_ h.mem h.next rhs.data_ (Or.inr (by omega)) k hk

/-- Claim C7, witness: allocation failure leaves everything untouched; an
    equal-length assignment copies in place; a length-changing assignment with
    enough memory adopts rhs's length, capacity and values. -/
theorem claim7_witness :
    assignAV (wArr 2 1 2) (wArr 3 3 3) (wHeap [0, 9, 9, 5, 6, 7] 6) 2
      = AssignResult.mk (some .memoryExhaustion) (wArr 2 1 2) (wHeap [0, 9, 9, 5, 6, 7] 6)
  ∧ ((assignAV (wArr 3 0 3) (wArr 3 3 3) (wHeap [0, 9, 9, 5, 6, 7] 6) 3).err = none
      ∧ (assignAV (wArr 3 0 3) (wArr 3 3 3) (wHeap [0, 9, 9, 5, 6, 7] 6) 3).res = wArr 3 0 3
      ∧ (assignAV (wArr 3 0 3) (wArr 3 3 3) (wHeap [0, 9, 9, 5, 6, 7] 6) 3).heap.next = 6
      ∧ readList (assignAV (wArr 3 0 3) (wArr 3 3 3) (wHeap [0, 9, 9, 5, 6, 7] 6) 3).heap.mem 0 3
          = readList (listMem [0, 9, 9, 5, 6, 7]) 3 3)
  ∧ ((assignAV (wArr 2 1 2) (wArr 3 3 3) (wHeap [0, 9, 9, 5, 6, 7] 6) 3).err = none
      ∧ (assignAV (wArr 2 1 2) (wArr 3 3 3) (wHeap [0, 9, 9, 5, 6, 7] 6) 3).res.size_ = 3
      ∧ (assignAV (wArr 2 1 2) (wArr 3 3 3) (wHeap [0, 9, 9, 5, 6, 7] 6) 3).res.capacity_ = 3
      ∧ readList (assignAV (wArr 2 1 2) (wArr 3 3 3) (wHeap [0, 9, 9, 5, 6, 7] 6) 3).heap.mem
          (assignAV (wArr 2 1 2) (wArr 3 3 3) (wHeap [0, 9, 9, 5, 6, 7] 6) 3).res.data_ 3
          = readList (listMem [0, 9, 9, 5, 6, 7]) 3 3) :=
  ⟨(claim7_assign (wArr 2 1 2) (wArr 3 3 3) (wHeap [0, 9, 9, 5, 6, 7] 6) 2
      ⟨by decide, by decide⟩).1 (by decide) (by decide),
   (claim7_assign (wArr 3 0 3) (wArr 3 3 3) (wHeap [0, 9, 9, 5, 6, 7] 6) 3
      ⟨by decide, by decide⟩).2.1 rfl,
   (claim7_assign (wArr 2 1 2) (wArr 3 3 3) (wHeap [0, 9, 9, 5, 6, 7] 6) 3
      ⟨by decide, by decide⟩).2.2 (by decide) (by decide)⟩

/-- Claim C8: `reserve(n)` never decreases the capacity and never alters the
    length or the element values; it is a no-op when `n ≤ capacity`, and
    otherwise sets the capacity to exactly `n`. -/
theorem claim8_reserve (a : ArrayVector) (n : Nat) (h : Heap α) (hwf : WF a h) :
    a.capacity_ ≤ (reserve a n h).1.capacity_
  ∧ (reserve a n h).1.size_ = a.size_
  ∧ contents (reserve a n h).1 (reserve a n h).2 = contents a h
  ∧ (n ≤ a.capacity_ → reserve a n h = (a, h))
  ∧ (a.capacity_ < n → (reserve a n h).1.capacity_ = n) := by
  obtain ⟨r1, r2, r3, r4, r5⟩ := reserve_spec a n h hwf
  refine ⟨r2, r1, ?_, reserve_of_le a n h, r5⟩
  unfold contents
  rw [r1]
  exact readList_congr a.size_ r4

/-- Claim C8, witness: a growing `reserve(5)` from capacity 2 keeps the values
    `[4, 5]` and the length, and sets capacity 5; `reserve(1)` is a no-op. -/
theorem claim8_witness :
    WF (wArr 2 1 2) (wHeap [0, 4, 5] 3)
  ∧ (wArr 2 1 2).capacity_ ≤ (reserve (wArr 2 1 2) 5 (wHeap [0, 4, 5] 3)).1.capacity_
  ∧ (reserve (wArr 2 1 2) 5 (wHeap [0, 4, 5] 3)).1.size_ = 2
  ∧ contents (reserve (wArr 2 1 2) 5 (wHeap [0, 4, 5] 3)).1
      (reserve (wArr 2 1 2) 5 (wHeap [0, 4, 5] 3)).2
      = contents (wArr 2 1 2) (wHeap [0, 4, 5] 3)
  ∧ (reserve (wArr 2 1 2) 5 (wHeap [0, 4, 5] 3)).1.capacity_ = 5
  ∧ reserve (wArr 2 1 2) 1 (wHeap [0, 4, 5] 3) = (wArr 2 1 2, wHeap [0, 4, 5] 3) := by
  obtain ⟨c1, c2, c3, c4, c5⟩ :=
    claim8_reserve (wArr 2 1 2) 5 (wHeap [0, 4, 5] 3) ⟨by decide, by decide⟩
  exact ⟨⟨by decide, by decide⟩, c1, c2, c3, c5 (by decide),
    (claim8_reserve (wArr 2 1 2) 1 (wHeap [0, 4, 5] 3) ⟨by decide, by decide⟩).2.2.2.1
      (by decide)⟩

/-- Claim C9: `push_back` follows the zero-argument growth policy — capacity 0
    becomes `minimumCapacity`, a full non-zero capacity doubles, otherwise the
    capacity is kept — then the value lands in slot `length` and the length
    grows by one, with all prior elements unchanged. -/
theorem claim9_push_back (a : ArrayVector) (v : α) (h : Heap α) (hwf : WF a h) :
    (push_back a v h).1.size_ = a.size_ + 1
  ∧ (push_back a v h).1.capacity_
      = (if a.capacity_ = 0 then minimumCapacity
         else if a.size_ = a.capacity_ then 2 * a.capacity_ else a.capacity_)
  ∧ contents (push_back a v h).1 (push_back a v h).2 = contents a h ++ [v] := by
  obtain ⟨p1, p2, p3, p4, p5⟩ := push_back_spec a v h hwf
  obtain ⟨g1, g2, g3, g4, g5⟩ := reserveGrow_spec a h hwf
  refine ⟨p1, p2.trans g2, ?_⟩
  unfold contents
  rw [p1, readList_succ]
  congr 1
  · exact readList_congr a.size_ p4
  · rw [p5]

/-- Claim C9, witness: capacity 2, length 2, values `[10, 20]`; `push_back 30`
    gives length 3, capacity 4, contents `[10, 20, 30]`. -/
theorem claim9_witness :
    WF (wArr 2 1 2) (wHeap [0, 10, 20] 3)
  ∧ (push_back (wArr 2 1 2) (30 : Int) (wHeap [0, 10, 20] 3)).1.size_ = 3
  ∧ (push_back (wArr 2 1 2) (30 : Int) (wHeap [0, 10, 20] 3)).1.capacity_ = 4
  ∧ contents (push_back (wArr 2 1 2) (30 : Int) (wHeap [0, 10, 20] 3)).1
      (push_back (wArr 2 1 2) (30 : Int) (wHeap [0, 10, 20] 3)).2 = [10, 20, 30] := by
  obtain ⟨c1, c2, c3⟩ :=
    claim9_push_back (wArr 2 1 2) (30 : Int) (wHeap [0, 10, 20] 3) ⟨by decide, by decide⟩
  exact ⟨⟨by decide, by decide⟩, c1, c2.trans (by decide), c3.trans (by decide)⟩

/-- Claim C10: constructing with an explicit length 0 performs no allocation —
    length 0, capacity 0, null data pointer, heap untouched — while the default
    constructor allocates `minimumCapacity = 2` slots (non-null data, frontier
    advanced); a `push_back` on the length-0 array still succeeds because the
    growth policy first raises the zero capacity to `minimumCapacity`. -/
theorem claim10_zero_ctor (h : Heap α) (fill v : α) (hn : 1 ≤ h.next) :
    (mkSized 0 fill h).1.size_ = 0
  ∧ (mkSized 0 fill h).1.capacity_ = 0
  ∧ (mkSized 0 fill h).1.data_ = 0
  ∧ (mkSized 0 fill h).2 = h
  ∧ (mkDefault h).1.capacity_ = minimumCapacity
  ∧ (mkDefault h).1.data_ ≠ 0
  ∧ (mkDefault h).2.next = h.next + minimumCapacity
  ∧ (push_back (mkSized 0 fill h).1 v (mkSized 0 fill h).2).1.size_ = 1
  ∧ (push_back (mkSized 0 fill h).1 v (mkSized 0 fill h).2).1.capacity_ = minimumCapacity
  ∧ contents (push_back (mkSized 0 fill h).1 v (mkSized 0 fill h).2).1
      (push_back (mkSized 0 fill h).1 v (mkSized 0 fill h).2).2 = [v] := by
  refine ⟨rfl, rfl, rfl, rfl, rfl, ?_, rfl, rfl, rfl, ?_⟩
  · show h.next ≠ 0
    omega
  · have e : readList (writeMem h.mem (h.next + 0) v) h.next 1
        = [writeMem h.mem (h.next + 0) v (h.next + 0)] := rfl
    show readList (writeMem h.mem (h.next + 0) v) h.next 1 = [v]
    rw [e, writeMem_same]

/-- Claim C10, witness: a concrete heap with frontier 1. -/
theorem claim10_witness :
    (1 : Nat) ≤ (wHeap [] 1).next
  ∧ (mkSized 0 (0 : Int) (wHeap [] 1)).1.capacity_ = 0
  ∧ (mkSized 0 (0 : Int) (wHeap [] 1)).1.data_ = 0
  ∧ (mkSized 0 (0 : Int) (wHeap [] 1)).2 = wHeap [] 1
  ∧ (mkDefault (wHeap [] (1 : Nat)) : ArrayVector × Heap Int).1.data_ ≠ 0
  ∧ contents (push_back (mkSized 0 (0 : Int) (wHeap [] 1)).1 7 (mkSized 0 (0 : Int) (wHeap [] 1)).2).1
      (push_back (mkSized 0 (0 : Int) (wHeap [] 1)).1 7 (mkSized 0 (0 : Int) (wHeap [] 1)).2).2
      = [7] := by
  obtain ⟨c1, c2, c3, c4, c5, c6, c7, c8, c9, c10⟩ :=
    claim10_zero_ctor (wHeap [] 1) (0 : Int) 7 (by decide)
  exact ⟨by decide, c2, c3, c4, c6, c10⟩

/-- Claim C5, witness: a mismatched pair at different addresses fails, an
    identical-address pair is a no-op, and an equal-length pair at different
    addresses succeeds with the element-wise copy. -/
theorem claim5_witness :
    ((ArrayVectorView.mk 2 5).size_ ≠ (ArrayVectorView.mk 3 9).size_
      ∧ (ArrayVectorView.mk 2 5).data_ ≠ (ArrayVectorView.mk 3 9).data_
      ∧ copy (ArrayVectorView.mk 2 5) (ArrayVectorView.mk 3 9) mem0
          = .error (.preconditionViolation "ArrayVectorView::copy(): shape mismatch."))
  ∧ copy (ArrayVectorView.mk 2 5) (ArrayVectorView.mk 2 5) mem0 = .ok mem0
  ∧ copy (ArrayVectorView.mk 2 0) (ArrayVectorView.mk 2 2) mem0
      = .ok (copyDir (ArrayVectorView.mk 2 0) (ArrayVectorView.mk 2 2) mem0) :=
  ⟨⟨by decide, by decide,
    (claim5_amended (ArrayVectorView.mk 2 5) (ArrayVectorView.mk 3 9) mem0).1
      (by decide) (by decide)⟩,
   (claim5_amended (ArrayVectorView.mk 2 5) (ArrayVectorView.mk 2 5) mem0).2.1 rfl,
   (claim5_amended (ArrayVectorView.mk 2 0) (ArrayVectorView.mk 2 2) mem0).2.2
     rfl (by decide)⟩

end Vigra
